import Mathlib

/-!
Shallow embedding of the `rust-figfont` FIGfont decoder
(`src/header.rs`, `src/character.rs`).

A byte stream is a `List Nat` (each element a byte value 0..255); reading a
line consumes a prefix of the stream and returns the remaining suffix, which
models the advancing cursor of the Rust `BufReader`.

The crate modules `utils.rs` (line reading), `grapheme.rs` (grapheme
segmentation) and `error.rs` are not present in the sources; those parts are
modelled from the specification and are marked `Modelled from the spec:` in
their doc comments.  Everything else is translated directly from
`src/header.rs` and `src/character.rs`.
-/

/-- Error kinds of the crate.  `invalidHeader`, `invalidCharacter` and
`notEnoughData` are the `ParseError` variants used by `header.rs` and
`character.rs`; `ioInvalidData` models the pass-through I/O failure that
`BufRead::read_line` produces on invalid UTF-8 comment bytes. -/
inductive ParseError
  | invalidHeader
  | invalidCharacter
  | notEnoughData
  | ioInvalidData
  deriving DecidableEq, Repr

/-- `PrintDirection` from `header.rs`. -/
inductive PrintDirection
  | leftToRight
  | rightToLeft
  deriving DecidableEq, Repr

/-- The `Header` struct of `header.rs` (the `comment : String` field is kept
as its UTF-8 bytes). -/
structure Header where
  hard_blank_char : Nat
  height : Nat
  baseline : Nat
  max_length : Nat
  old_layout : Int
  full_layout : Nat
  comment : List Nat
  print_direction : Option PrintDirection
  codetag_count : Option Nat
  deriving DecidableEq, Repr

/-- The accessor `Header::codetag_count(&self)`:
`self.codetag_count.unwrap_or(0)`. -/
def Header.codetagCount (h : Header) : Nat :=
  h.codetag_count.getD 0

/-- Convert an ASCII string literal to its byte list (all literals used in
this development are ASCII, where code point and byte coincide). -/
def str2bytes (s : String) : List Nat :=
  s.data.map Char.toNat

/-! ## Numeric token parsing

Rust's `str::parse` for unsigned/signed integers and `from_str_radix`:
an optional single sign, then one or more digits of the radix, with a
range check; anything else is an error.  `from_utf8` failure and numeric
parse failure are mapped to the same error kind at every call site, and a
byte list that is not valid UTF-8 is also not a valid digit string, so the
two failure modes collapse soundly. -/

/-- Value of one digit byte (`0`-`9`, `a`-`z`, `A`-`Z`), as in Rust's
`char::to_digit`. -/
def digitValue (b : Nat) : Option Nat :=
  if 48 ≤ b ∧ b ≤ 57 then some (b - 48)
  else if 97 ≤ b ∧ b ≤ 122 then some (b - 87)
  else if 65 ≤ b ∧ b ≤ 90 then some (b - 55)
  else none

/-- Digits of a given radix folded to their value; `none` when empty or when
some byte is not a digit below the radix. -/
def digitsInRadix (radix : Nat) : List Nat → Option Nat
  | [] => none
  | [b] =>
    match digitValue b with
    | some d => if d < radix then some d else none
    | none => none
  | b :: rest =>
    match digitValue b with
    | some d =>
      if d < radix then
        match digitsInRadix radix rest with
        | some v => some (d * radix ^ rest.length + v)
        | none => none
      else none
    | none => none

/-- Rust `u64::from_str` (also `usize` on a 64-bit target): optional `+`,
decimal digits, value below `2 ^ 64`. -/
def parseU64 (l : List Nat) : Option Nat :=
  let l' := if l.take 1 = [43] then l.tail else l
  match digitsInRadix 10 l' with
  | some v => if v < 2 ^ 64 then some v else none
  | none => none

/-- Rust `i64::from_str`: optional `+` or `-`, decimal digits, value within
the `i64` range. -/
def parseI64 (l : List Nat) : Option Int :=
  let neg := l.take 1 = [45]
  let l' := if l.take 1 = [45] ∨ l.take 1 = [43] then l.tail else l
  match digitsInRadix 10 l' with
  | some v =>
    let x : Int := if neg then -(v : Int) else (v : Int)
    if -(2 ^ 63) ≤ x ∧ x < 2 ^ 63 then some x else none
  | none => none

/-- Rust `u8::from_str`, used by `PrintDirection::from_str`. -/
def parseU8 (l : List Nat) : Option Nat :=
  let l' := if l.take 1 = [43] then l.tail else l
  match digitsInRadix 10 l' with
  | some v => if v < 2 ^ 8 then some v else none
  | none => none

/-- Rust `i32::from_str_radix` (also `str::parse::<i32>` at radix 10):
optional sign, digits in the radix, `i32` range check. -/
def fromStrRadixI32 (l : List Nat) (radix : Nat) : Option Int :=
  let neg := l.take 1 = [45]
  let l' := if l.take 1 = [45] ∨ l.take 1 = [43] then l.tail else l
  match digitsInRadix radix l' with
  | some v =>
    let x : Int := if neg then -(v : Int) else (v : Int)
    if -(2 ^ 31) ≤ x ∧ x < 2 ^ 31 then some x else none
  | none => none

/-! ## Line reading -/

/-- Bytes before the first newline byte and the stream after it; `none` when
the stream holds no newline byte. -/
def readLineAux : List Nat → Option (List Nat × List Nat)
  | [] => none
  | b :: rest =>
    if b = 10 then some ([], rest)
    else
      match readLineAux rest with
      | some (l, r) => some (b :: l, r)
      | none => none

/-- Drop one trailing carriage-return byte, completing the stripping of a
`\r\n` newline sequence. -/
def stripCR (l : List Nat) : List Nat :=
  if l.getLast? = some 13 then l.dropLast else l

/-- Modelled from the spec: `utils::read_line` (`src/utils.rs` is absent).
Returns one line's bytes with the newline sequence stripped, and fails with
`NotEnoughData` when the stream ends before a newline is found. -/
def read_line (s : List Nat) : Except ParseError (List Nat × List Nat) :=
  match readLineAux s with
  | some (l, r) => .ok (stripCR l, r)
  | none => .error .notEnoughData

/-- Modelled from the spec: `utils::read_last_line` (`src/utils.rs` is
absent).  Accepts either a newline-terminated line or a line terminated by
the end of the stream with no trailing newline. -/
def read_last_line (s : List Nat) : Except ParseError (List Nat × List Nat) :=
  match readLineAux s with
  | some (l, r) => .ok (stripCR l, r)
  | none => .ok (s, [])

/-- One raw line as `BufRead::read_line` reads it: bytes up to and including
the newline byte, or the whole rest of the stream at end of input. -/
def readRawLine : List Nat → List Nat × List Nat
  | [] => ([], [])
  | b :: rest =>
    if b = 10 then ([10], rest)
    else
      let (l, r) := readRawLine rest
      (b :: l, r)

/-- `num` raw lines concatenated, as the loop in `read_string_lines` builds
its `String`. -/
def readRawLines : Nat → List Nat → List Nat × List Nat
  | 0, s => ([], s)
  | n + 1, s =>
    let (l, r) := readRawLine s
    let (ls, r') := readRawLines n r
    (l ++ ls, r')

/-! ## UTF-8 validity

`BufRead::read_line` fails with an I/O `InvalidData` error when the bytes
read are not valid UTF-8.  The chunking below follows the UTF-8 byte-range
table (RFC 3629): each chunk is one scalar value's byte sequence.  A chunk
boundary always sits after a newline byte, and a newline byte can occur only
as a one-byte chunk, so per-line validity and validity of the concatenation
agree. -/

/-- For a leading UTF-8 byte: number of continuation bytes and the allowed
range of the first continuation byte; `none` for an invalid leading byte. -/
def utf8FollowRange (b : Nat) : Option (Nat × Nat × Nat) :=
  if b ≤ 127 then some (0, 0, 0)
  else if 194 ≤ b ∧ b ≤ 223 then some (1, 128, 191)
  else if b = 224 then some (2, 160, 191)
  else if 225 ≤ b ∧ b ≤ 236 then some (2, 128, 191)
  else if b = 237 then some (2, 128, 159)
  else if 238 ≤ b ∧ b ≤ 239 then some (2, 128, 191)
  else if b = 240 then some (3, 144, 191)
  else if 241 ≤ b ∧ b ≤ 243 then some (3, 128, 191)
  else if b = 244 then some (3, 128, 143)
  else none

/-- Is `b` a UTF-8 continuation byte? -/
def contByte (b : Nat) : Bool :=
  decide (128 ≤ b ∧ b ≤ 191)

/-- Split a byte list into UTF-8 scalar-value chunks; `none` when the bytes
are not valid UTF-8. -/
def utf8Chunks : List Nat → Option (List (List Nat))
  | [] => some []
  | b :: rest =>
    match utf8FollowRange b with
    | none => none
    | some (0, _, _) =>
      match utf8Chunks rest with
      | some cs => some ([b] :: cs)
      | none => none
    | some (1, lo, hi) =>
      match rest with
      | c1 :: rest2 =>
        if lo ≤ c1 ∧ c1 ≤ hi then
          match utf8Chunks rest2 with
          | some cs => some ([b, c1] :: cs)
          | none => none
        else none
      | [] => none
    | some (2, lo, hi) =>
      match rest with
      | c1 :: c2 :: rest2 =>
        if (lo ≤ c1 ∧ c1 ≤ hi) ∧ contByte c2 then
          match utf8Chunks rest2 with
          | some cs => some ([b, c1, c2] :: cs)
          | none => none
        else none
      | _ => none
    | some (_ + 3, lo, hi) =>
      match rest with
      | c1 :: c2 :: c3 :: rest2 =>
        if (lo ≤ c1 ∧ c1 ≤ hi) ∧ contByte c2 ∧ contByte c3 then
          match utf8Chunks rest2 with
          | some cs => some ([b, c1, c2, c3] :: cs)
          | none => none
        else none
      | _ => none

/-- `read_string_lines` of `header.rs`: read `num` raw lines (each kept with
its newline, as `BufRead::read_line` appends them), require the
concatenation to be valid UTF-8, then strip one trailing `\r\n` or `\n`,
failing with `NotEnoughData` when neither is present. -/
def read_string_lines (s : List Nat) (num : Nat) :
    Except ParseError (List Nat × List Nat) :=
  let (raw, rest) := readRawLines num s
  if (utf8Chunks raw).isSome then
    if raw.getLast? = some 10 ∧ raw.dropLast.getLast? = some 13 then
      .ok (raw.dropLast.dropLast, rest)
    else if raw.getLast? = some 10 then
      .ok (raw.dropLast, rest)
    else
      .error .notEnoughData
  else
    .error .ioInvalidData

/-! ## Header decoding -/

/-- `MAGIC_NUMBER`: the bytes of `flf2`. -/
def MAGIC_NUMBER : List Nat := [102, 108, 102, 50]

/-- `HeaderBuilder` of `header.rs`: every field optional, populated
positionally from the header-line tokens. -/
structure HeaderBuilder where
  hard_blank_char : Option Nat
  height : Option Nat
  baseline : Option Nat
  max_length : Option Nat
  old_layout : Option Int
  full_layout : Option Nat
  comment_lines : Option Nat
  print_direction : Option PrintDirection
  codetag_count : Option Nat
  deriving DecidableEq, Repr

/-- `HeaderBuilder::default()`: all fields `None`. -/
def emptyBuilder : HeaderBuilder :=
  ⟨none, none, none, none, none, none, none, none, none⟩

/-- `full_layout_from_old_layout` of `header.rs`; the final arm is Rust's
`l as u64`, a two's-complement reinterpretation, i.e. reduction mod `2^64`. -/
def full_layout_from_old_layout (old_layout : Int) : Nat :=
  if old_layout = -1 then 0
  else if old_layout = 0 then 1 <<< 6
  else (old_layout % (2 : Int) ^ 64).toNat

/-- `PrintDirection::from_str`: parse as `u8`, then `0` is left-to-right,
`1` is right-to-left, anything else `InvalidHeader`. -/
def printDirectionFromStr (l : List Nat) : Option PrintDirection :=
  match parseU8 l with
  | some 0 => some .leftToRight
  | some 1 => some .rightToLeft
  | _ => none

/-- One arm of the `match i` in `parse_header`'s token loop: apply the
`i`-th space-separated token to the builder.  Index 0 checks the `flf2`
magic and stores the token's last byte as the hard-blank byte; index 4
stores `old_layout` and immediately derives `full_layout`; indices above 8
are rejected. -/
def applyToken (b : HeaderBuilder) (i : Nat) (arg : List Nat) :
    Except ParseError HeaderBuilder :=
  match i with
  | 0 =>
    if arg.take 4 = MAGIC_NUMBER then
      match arg.getLast? with
      | some c => .ok { b with hard_blank_char := some c }
      | none => .error .invalidHeader
    else .error .invalidHeader
  | 1 =>
    match parseU64 arg with
    | some v => .ok { b with height := some v }
    | none => .error .invalidHeader
  | 2 =>
    match parseU64 arg with
    | some v => .ok { b with baseline := some v }
    | none => .error .invalidHeader
  | 3 =>
    match parseU64 arg with
    | some v => .ok { b with max_length := some v }
    | none => .error .invalidHeader
  | 4 =>
    match parseI64 arg with
    | some v =>
      .ok { b with old_layout := some v,
                   full_layout := some (full_layout_from_old_layout v) }
    | none => .error .invalidHeader
  | 5 =>
    match parseU64 arg with
    | some v => .ok { b with comment_lines := some v }
    | none => .error .invalidHeader
  | 6 =>
    match printDirectionFromStr arg with
    | some v => .ok { b with print_direction := some v }
    | none => .error .invalidHeader
  | 7 =>
    match parseU64 arg with
    | some v => .ok { b with full_layout := some v }
    | none => .error .invalidHeader
  | 8 =>
    match parseU64 arg with
    | some v => .ok { b with codetag_count := some v }
    | none => .error .invalidHeader
  | _ => .error .invalidHeader

/-- The `for (i, arg) in arguments.enumerate()` loop: tokens applied in
order at increasing indices, stopping at the first error. -/
def runTokensFrom (b : HeaderBuilder) (i : Nat) :
    List (List Nat) → Except ParseError HeaderBuilder
  | [] => .ok b
  | t :: ts =>
    match applyToken b i t with
    | .ok b' => runTokensFrom b' (i + 1) ts
    | .error e => .error e

/-- Run the token loop from the default builder at index 0. -/
def runTokens (toks : List (List Nat)) : Except ParseError HeaderBuilder :=
  runTokensFrom emptyBuilder 0 toks

/-- Split a byte line at space bytes, as Rust's `slice::split` does
(empty segments kept; they are filtered afterwards). -/
def splitOnSpace : List Nat → List (List Nat)
  | [] => [[]]
  | b :: rest =>
    if b = 32 then [] :: splitOnSpace rest
    else
      match splitOnSpace rest with
      | t :: ts => (b :: t) :: ts
      | [] => [[b]]

/-- `header.split(' ').filter(not empty)`: the header-line tokens. -/
def tokens (line : List Nat) : List (List Nat) :=
  (splitOnSpace line).filter (fun t => t ≠ [])

/-- `HeaderBuilder::build`: read `comment_lines.unwrap_or(0)` comment lines
first, then require every mandatory field to be set, mapping an unset field
to `InvalidHeader`. -/
def HeaderBuilder.build (b : HeaderBuilder) (s : List Nat) :
    Except ParseError (Header × List Nat) :=
  match read_string_lines s (b.comment_lines.getD 0) with
  | .error e => .error e
  | .ok (comment, rest) =>
    match b.hard_blank_char, b.height, b.baseline, b.max_length,
        b.old_layout, b.full_layout with
    | some hb, some h, some bl, some ml, some ol, some fl =>
      .ok (⟨hb, h, bl, ml, ol, fl, comment, b.print_direction,
            b.codetag_count⟩, rest)
    | _, _, _, _, _, _ => .error .invalidHeader

/-- `parse_header` of `header.rs`: read the header line, split it into
tokens, run the positional token loop, then build the header (reading the
comment block).  The returned list is the remaining stream. -/
def parse_header (s : List Nat) : Except ParseError (Header × List Nat) :=
  match read_line s with
  | .error e => .error e
  | .ok (line, rest) =>
    match runTokens (tokens line) with
    | .ok b => b.build rest
    | .error e => .error e

/-! ## Grapheme segmentation and characters -/

/-- A display cell: either the hard-blank marker or the bytes of one
segmented cluster. -/
inductive Grapheme
  | blank
  | cell (bytes : List Nat)
  deriving DecidableEq, Repr

/-- Modelled from the spec: `Grapheme::split` (`src/grapheme.rs` is absent).
Segments a delimiter-stripped byte line into an ordered sequence of display
cells, turning every occurrence of the hard-blank byte into the blank
marker; fails when the bytes cannot be segmented (not valid UTF-8). -/
def Grapheme.split (bytes : List Nat) (hard_blank : Nat) :
    Except Unit (List Grapheme) :=
  match utf8Chunks bytes with
  | some cs =>
    .ok (cs.map fun c => if c = [hard_blank] then Grapheme.blank else Grapheme.cell c)
  | none => .error ()

/-- The `FIGcharacter` struct of `character.rs`. -/
structure FIGcharacter where
  lines : List (List Grapheme)
  deriving DecidableEq, Repr

/-- `FIGcharacter::height`: the row count. -/
def FIGcharacter.height (c : FIGcharacter) : Nat :=
  c.lines.length

/-- `FIGcharacter::width`: `lines.iter().map(len).max().unwrap_or_default()`. -/
def FIGcharacter.width (c : FIGcharacter) : Nat :=
  (c.lines.map List.length).foldr max 0

/-- `n` calls to `read_line`, collecting the lines in order and stopping at
the first error. -/
def readNLines : Nat → List Nat → Except ParseError (List (List Nat) × List Nat)
  | 0, s => .ok ([], s)
  | n + 1, s =>
    match read_line s with
    | .ok (l, r) =>
      match readNLines n r with
      | .ok (ls, r') => .ok (l :: ls, r')
      | .error e => .error e
    | .error e => .error e

/-- `read_lines` of `character.rs`: `num - 1` ordinary line reads followed
by one last-line read.  In the source `num - 1` is a `usize` subtraction
that underflows when `num = 0`; the model uses truncated subtraction and is
therefore meaningful only for `num ≥ 1`, which every call site with a
positive validated height satisfies (see the height-validation analysis). -/
def read_lines (s : List Nat) (num : Nat) :
    Except ParseError (List (List Nat) × List Nat) :=
  match readNLines (num - 1) s with
  | .ok (ls, r) =>
    match read_last_line r with
    | .ok (last, r') => .ok (ls ++ [last], r')
    | .error e => .error e
  | .error e => .error e

/-- The per-row loop of `read_character` (`character.rs` lines 108-119):
for every row in order, require it non-empty and ending with the record
delimiter, and drop that trailing delimiter byte. -/
def stripRows (delimiter : Nat) : List (List Nat) → Except ParseError (List (List Nat))
  | [] => .ok []
  | l :: ls =>
    if l.length = 0 then .error .invalidCharacter
    else if l.getLast? = some delimiter then
      match stripRows delimiter ls with
      | .ok ls' => .ok (l.dropLast :: ls')
      | .error e => .error e
    else .error .invalidCharacter

/-- The validation blocks of `read_character` (`character.rs` lines 90-119):
require a non-empty first row, whose last byte is the record delimiter; when
`height > 1` require the last row to end with the delimiter and drop that
one byte; then run the per-row loop `stripRows`. -/
def checkAndStrip (lines : List (List Nat)) (height : Nat) :
    Except ParseError (List (List Nat)) :=
  if (lines.headD []).length = 0 then .error .invalidCharacter
  else if height > 1 then
    if (lines.getLastD []).getLast? = some ((lines.headD []).getLastD 0) then
      stripRows ((lines.headD []).getLastD 0)
        (lines.dropLast ++ [(lines.getLastD []).dropLast])
    else .error .invalidCharacter
  else stripRows ((lines.headD []).getLastD 0) lines

/-- The segmentation loop of `read_character` (`character.rs` lines
121-129): segment every stripped row, mapping a segmentation failure to
`InvalidHeader`. -/
def segmentRows (hard_blank : Nat) :
    List (List Nat) → Except ParseError (List (List Grapheme))
  | [] => .ok []
  | l :: ls =>
    match Grapheme.split l hard_blank with
    | .ok g =>
      match segmentRows hard_blank ls with
      | .ok gs => .ok (g :: gs)
      | .error e => .error e
    | .error _ => .error .invalidHeader

/-- `read_character` of `character.rs`: read `height` lines, validate and
strip the delimiters, segment every row, and collect the rows into a
`FIGcharacter`.  The returned list is the remaining stream. -/
def read_character (s : List Nat) (header : Header) :
    Except ParseError (FIGcharacter × List Nat) :=
  match read_lines s header.height with
  | .error e => .error e
  | .ok (lines, rest) =>
    match checkAndStrip lines header.height with
    | .error e => .error e
    | .ok rows =>
      match segmentRows header.hard_blank_char rows with
      | .error e => .error e
      | .ok segs => .ok (⟨segs⟩, rest)

/-- `read_codetag` of `character.rs`: read one line, take the bytes before
the first space, strip one optional leading minus sign, then parse the rest
in hexadecimal (leading `0x`/`0X`), octal (leading `0`) or decimal, and
apply the sign.  Any parse failure is `InvalidCharacter`. -/
def read_codetag (s : List Nat) : Except ParseError (Int × List Nat) :=
  match read_line s with
  | .error e => .error e
  | .ok (line, rest) =>
    let code0 := line.takeWhile (fun c => c ≠ 32)
    let sign : Int := if code0.take 1 = [45] then -1 else 1
    let code := if code0.take 1 = [45] then code0.tail else code0
    let parsed : Option Int :=
      if code.take 2 = [48, 120] ∨ code.take 2 = [48, 88] then
        fromStrRadixI32 (code.drop 2) 16
      else if code.take 1 = [48] then
        fromStrRadixI32 (code.tail) 8
      else
        fromStrRadixI32 code 10
    match parsed with
    | some v => .ok (v * sign, rest)
    | none => .error .invalidCharacter

/-- `read_character_with_codetag` of `character.rs`: a codetag line followed
by a character block. -/
def read_character_with_codetag (s : List Nat) (header : Header) :
    Except ParseError ((Int × FIGcharacter) × List Nat) :=
  match read_codetag s with
  | .error e => .error e
  | .ok (codetag, r) =>
    match read_character r header with
    | .error e => .error e
    | .ok (c, r') => .ok ((codetag, c), r')

/-! ## Helper lemmas about the header token loop -/

/-- Every error the token loop's body can produce is `InvalidHeader`. -/
theorem applyToken_error_kind (b : HeaderBuilder) (i : Nat) (t : List Nat)
    (e : ParseError) (h : applyToken b i t = .error e) : e = .invalidHeader := by
  rcases i with _ | _ | _ | _ | _ | _ | _ | _ | _ | i <;>
    (simp only [applyToken] at h; repeat' split at h) <;> simp_all

/-- The token-loop body changes `comment_lines` only at index 5. -/
theorem applyToken_comment_lines (b : HeaderBuilder) (i : Nat) (t : List Nat)
    (b' : HeaderBuilder) (h : applyToken b i t = .ok b') (hi : i ≠ 5) :
    b'.comment_lines = b.comment_lines := by
  rcases i with _ | _ | _ | _ | _ | _ | _ | _ | _ | i <;>
    (first
      | exact absurd rfl hi
      | (simp only [applyToken] at h; repeat' split at h) <;> simp_all <;>
          subst h <;> rfl)

/-- Every error the token loop can produce is `InvalidHeader`. -/
theorem runTokensFrom_error_kind (ts : List (List Nat)) :
    ∀ b i e, runTokensFrom b i ts = .error e → e = .invalidHeader := by
  induction ts with
  | nil => intro b i e h; simp [runTokensFrom] at h
  | cons t ts ih =>
    intro b i e h
    simp only [runTokensFrom] at h
    cases ha : applyToken b i t with
    | ok b1 => rw [ha] at h; exact ih b1 (i + 1) e h
    | error e1 =>
      rw [ha] at h
      injection h with h1
      exact h1 ▸ applyToken_error_kind b i t e1 ha

/-- A token loop that never reaches index 5 leaves `comment_lines` alone. -/
theorem runTokensFrom_comment_lines (ts : List (List Nat)) :
    ∀ b i b', runTokensFrom b i ts = .ok b' → i + ts.length ≤ 5 →
      b'.comment_lines = b.comment_lines := by
  induction ts with
  | nil =>
    intro b i b' h _
    simp only [runTokensFrom] at h
    injection h with h1
    rw [← h1]
  | cons t ts ih =>
    intro b i b' h hle
    simp only [runTokensFrom] at h
    simp only [List.length_cons] at hle
    cases ha : applyToken b i t with
    | error e => rw [ha] at h; exact absurd h (by simp)
    | ok b1 =>
      rw [ha] at h
      have h1 := ih b1 (i + 1) b' h (by omega)
      have h2 := applyToken_comment_lines b i t b1 ha (by omega)
      rw [h1, h2]

/-- The relation maintained between `full_layout` and `old_layout` while no
explicit eighth token has been seen. -/
def flInv (b : HeaderBuilder) : Prop :=
  ∀ ol, b.old_layout = some ol →
    b.full_layout = some (full_layout_from_old_layout ol)

/-- Away from indices 4 and 7, the token-loop body changes neither
`old_layout` nor `full_layout`. -/
theorem applyToken_layout_fields (b : HeaderBuilder) (i : Nat) (t : List Nat)
    (b' : HeaderBuilder) (h : applyToken b i t = .ok b') (h4 : i ≠ 4)
    (h7 : i ≠ 7) :
    b'.old_layout = b.old_layout ∧ b'.full_layout = b.full_layout := by
  rcases i with _ | _ | _ | _ | _ | _ | _ | _ | _ | i <;>
    (first
      | exact absurd rfl h4
      | exact absurd rfl h7
      | (simp only [applyToken] at h; repeat' split at h) <;> simp_all <;>
          (rw [← h]; exact ⟨rfl, rfl⟩))

/-- At index 4 the token-loop body stores the parsed `old_layout` and
immediately derives `full_layout` from it. -/
theorem applyToken_idx4 (b : HeaderBuilder) (t : List Nat)
    (b' : HeaderBuilder) (h : applyToken b 4 t = .ok b') :
    ∃ v, parseI64 t = some v ∧ b'.old_layout = some v ∧
      b'.full_layout = some (full_layout_from_old_layout v) := by
  simp only [applyToken] at h
  cases hp : parseI64 t with
  | none => rw [hp] at h; exact absurd h (by simp)
  | some v =>
    rw [hp] at h
    injection h with h1
    exact ⟨v, rfl, by rw [← h1], by rw [← h1]⟩

/-- The token-loop body preserves the derivation relation away from index 7:
index 4 establishes it, every other index below 7 touches neither field. -/
theorem applyToken_flInv (b : HeaderBuilder) (i : Nat) (t : List Nat)
    (b' : HeaderBuilder) (h : applyToken b i t = .ok b') (hi : i ≠ 7)
    (hb : flInv b) : flInv b' := by
  by_cases h4 : i = 4
  · subst h4
    obtain ⟨v, _, hol, hfl⟩ := applyToken_idx4 b t b' h
    intro ol holb
    rw [hol] at holb
    injection holb with h2
    rw [hfl, h2]
  · obtain ⟨hol, hfl⟩ := applyToken_layout_fields b i t b' h h4 hi
    intro ol holb
    rw [hfl, hol] at *
    exact hb ol holb

/-- A token loop that never reaches index 7 preserves the derivation
relation between `full_layout` and `old_layout`. -/
theorem runTokensFrom_flInv (ts : List (List Nat)) :
    ∀ b i b', runTokensFrom b i ts = .ok b' → i + ts.length ≤ 7 →
      flInv b → flInv b' := by
  induction ts with
  | nil =>
    intro b i b' h _ hb
    simp only [runTokensFrom] at h
    injection h with h1
    rw [← h1]
    exact hb
  | cons t ts ih =>
    intro b i b' h hle hb
    simp only [runTokensFrom] at h
    simp only [List.length_cons] at hle
    cases ha : applyToken b i t with
    | error e => rw [ha] at h; exact absurd h (by simp)
    | ok b1 =>
      rw [ha] at h
      exact ih b1 (i + 1) b' h (by omega)
        (applyToken_flInv b i t b1 ha (by omega) hb)

/-- Splitting the token loop at a list append. -/
theorem runTokensFrom_append (ts1 ts2 : List (List Nat)) :
    ∀ b i, runTokensFrom b i (ts1 ++ ts2) =
      match runTokensFrom b i ts1 with
      | .ok b1 => runTokensFrom b1 (i + ts1.length) ts2
      | .error e => .error e := by
  induction ts1 with
  | nil => intro b i; simp [runTokensFrom]
  | cons t ts ih =>
    intro b i
    simp only [List.cons_append, runTokensFrom]
    cases ha : applyToken b i t with
    | ok b1 =>
      show runTokensFrom b1 (i + 1) (ts ++ ts2) =
        match runTokensFrom b1 (i + 1) ts with
        | Except.ok b2 => runTokensFrom b2 (i + (ts.length + 1)) ts2
        | Except.error e => Except.error e
      rw [ih b1 (i + 1)]
      have harith : i + 1 + ts.length = i + (ts.length + 1) := by omega
      rw [harith]
    | error e => rfl

/-- From index 8 on, a successful token loop leaves `full_layout` alone
(index 8 stores only `codetag_count`; any later index is an error). -/
theorem runTokensFrom_from8_full_layout (ts : List (List Nat))
    (b b' : HeaderBuilder) (h : runTokensFrom b 8 ts = .ok b') :
    b'.full_layout = b.full_layout := by
  cases ts with
  | nil =>
    simp only [runTokensFrom] at h
    injection h with h1
    rw [← h1]
  | cons t8 ts' =>
    simp only [runTokensFrom, applyToken] at h
    cases hp : parseU64 t8 with
    | none => rw [hp] at h; exact absurd h (by simp)
    | some v =>
      rw [hp] at h
      cases ts' with
      | nil =>
        simp only [runTokensFrom] at h
        injection h with h1
        rw [← h1]
      | cons t9 ts'' =>
        simp only [runTokensFrom, applyToken] at h
        exact absurd h (by simp)

/-- At index 7 a successful run of the remaining token loop stores the
parsed eighth token as `full_layout` and keeps it. -/
theorem runTokensFrom_seven (t : List Nat) (ts : List (List Nat))
    (b b' : HeaderBuilder) (h : runTokensFrom b 7 (t :: ts) = .ok b') :
    ∃ v, parseU64 t = some v ∧ b'.full_layout = some v := by
  simp only [runTokensFrom, applyToken] at h
  cases hp : parseU64 t with
  | none => rw [hp] at h; exact absurd h (by simp)
  | some v =>
    rw [hp] at h
    refine ⟨v, rfl, ?_⟩
    rw [runTokensFrom_from8_full_layout ts _ b' h]

/-! ## Helper lemmas about comment reading and building -/

/-- Reading zero comment lines always fails: the empty concatenation has no
trailing newline to strip. -/
theorem read_string_lines_zero (s : List Nat) :
    read_string_lines s 0 = .error .notEnoughData := rfl

/-- A builder with no `comment_lines` value fails to build: the comment read
defaults to zero lines and that always reports `NotEnoughData`. -/
theorem build_comment_none (b : HeaderBuilder) (s : List Nat)
    (hc : b.comment_lines = none) :
    b.build s = .error .notEnoughData := by
  unfold HeaderBuilder.build
  rw [hc]
  exact rfl

/-- A successful build exposes exactly the builder's field values. -/
theorem build_fields (b : HeaderBuilder) (s : List Nat) (hdr : Header)
    (rest : List Nat) (h : b.build s = .ok (hdr, rest)) :
    b.hard_blank_char = some hdr.hard_blank_char ∧
    b.height = some hdr.height ∧
    b.baseline = some hdr.baseline ∧
    b.max_length = some hdr.max_length ∧
    b.old_layout = some hdr.old_layout ∧
    b.full_layout = some hdr.full_layout ∧
    b.print_direction = hdr.print_direction ∧
    b.codetag_count = hdr.codetag_count := by
  unfold HeaderBuilder.build at h
  cases hrs : read_string_lines s (b.comment_lines.getD 0) with
  | error e => rw [hrs] at h; exact absurd h (by simp)
  | ok p =>
    obtain ⟨comment, rest1⟩ := p
    rw [hrs] at h
    split at h
    · rename_i heq
      exact absurd heq (by simp)
    · split at h
      · rename_i hb0 h0 bl0 ml0 ol0 fl0 hhb hh hbl hml hol hfl
        simp only [Except.ok.injEq, Prod.mk.injEq] at h
        obtain ⟨h2, -⟩ := h
        subst h2
        exact ⟨hhb, hh, hbl, hml, hol, hfl, rfl, rfl⟩
      · exact absurd h (by simp)

/-! ## Helper lemmas about the character row loops -/

/-- Every error the per-row strip loop can produce is `InvalidCharacter`. -/
theorem stripRows_error_kind (d : Nat) (rows : List (List Nat)) :
    ∀ e, stripRows d rows = .error e → e = .invalidCharacter := by
  induction rows with
  | nil => intro e h; simp [stripRows] at h
  | cons l ls ih =>
    intro e h
    simp only [stripRows] at h
    split at h
    · injection h with h1; exact h1.symm
    · split at h
      · split at h
        · exact absurd h (by simp)
        · rename_i e1 heq
          injection h with h1
          exact h1 ▸ ih e1 heq
      · injection h with h1; exact h1.symm

/-- A successful strip loop means every row was non-empty and ended with the
delimiter. -/
theorem stripRows_ok_mem (d : Nat) (rows rows' : List (List Nat))
    (h : stripRows d rows = .ok rows') :
    ∀ x ∈ rows, x ≠ [] ∧ x.getLast? = some d := by
  induction rows generalizing rows' with
  | nil => intro x hx; exact absurd hx (by simp)
  | cons l ls ih =>
    intro x hx
    simp only [stripRows] at h
    split at h
    · exact absurd h (by simp)
    · rename_i hlen
      split at h
      · rename_i hlast
        split at h
        · rename_i ls1 heq
          rcases List.mem_cons.mp hx with rfl | hx2
          · exact ⟨fun hnil => hlen (by rw [hnil]; rfl), hlast⟩
          · exact ih ls1 heq x hx2
        · exact absurd h (by simp)
      · exact absurd h (by simp)

/-- Every error the segmentation loop can produce is `InvalidHeader`. -/
theorem segmentRows_error_kind (hb : Nat) (rows : List (List Nat)) :
    ∀ e, segmentRows hb rows = .error e → e = .invalidHeader := by
  induction rows with
  | nil => intro e h; simp [segmentRows] at h
  | cons l ls ih =>
    intro e h
    simp only [segmentRows] at h
    split at h
    · split at h
      · exact absurd h (by simp)
      · rename_i e1 heq
        injection h with h1
        exact h1 ▸ ih e1 heq
    · injection h with h1; exact h1.symm

/-- A successful segmentation loop means every row segmented successfully. -/
theorem segmentRows_ok_mem (hb : Nat) (rows : List (List Nat))
    (gs : List (List Grapheme)) (h : segmentRows hb rows = .ok gs) :
    ∀ x ∈ rows, ∃ g, Grapheme.split x hb = .ok g := by
  induction rows generalizing gs with
  | nil => intro x hx; exact absurd hx (by simp)
  | cons l ls ih =>
    intro x hx
    simp only [segmentRows] at h
    split at h
    · rename_i g hsplit
      split at h
      · rename_i gs1 heq
        rcases List.mem_cons.mp hx with rfl | hx2
        · exact ⟨g, hsplit⟩
        · exact ih gs1 heq x hx2
      · exact absurd h (by simp)
    · exact absurd h (by simp)

/-- The lines returned by `read_lines` always end with the last-line read. -/
theorem read_lines_shape (s : List Nat) (num : Nat)
    (lines : List (List Nat)) (rest : List Nat)
    (h : read_lines s num = .ok (lines, rest)) :
    ∃ ls lastL, lines = ls ++ [lastL] := by
  unfold read_lines at h
  cases h1 : readNLines (num - 1) s with
  | error e => rw [h1] at h; exact absurd h (by simp)
  | ok p =>
    obtain ⟨ls0, r0⟩ := p
    rw [h1] at h
    have h' : (match read_last_line r0 with
        | Except.ok (last, r') => (Except.ok (ls0 ++ [last], r') :
            Except ParseError (List (List Nat) × List Nat))
        | Except.error e => Except.error e) = Except.ok (lines, rest) := h
    cases h2 : read_last_line r0 with
    | error e =>
      rw [h2] at h'
      exact absurd h' (by simp)
    | ok q =>
      obtain ⟨lastL, r1⟩ := q
      rw [h2] at h'
      have h'' : (Except.ok (ls0 ++ [lastL], r1) :
          Except ParseError (List (List Nat) × List Nat)) =
          Except.ok (lines, rest) := h'
      simp only [Except.ok.injEq, Prod.mk.injEq] at h''
      exact ⟨ls0, lastL, h''.1.symm⟩

/-! ## Claim theorems -/

/-- C1: decoding the byte stream `flf2a$ 6 5 20 15 2\nc1\nc2\n` with
`parse_header` succeeds and yields a `Header` with hard-blank byte `'$'`,
height 6, baseline 5, max_length 20, old_layout 15, full_layout 15 (derived,
no eighth token), comment `"c1\nc2"` (interior newline preserved, one
trailing newline stripped), no print direction, and `codetag_count() = 0`. -/
theorem header_roundtrip_c1 :
    parse_header (str2bytes ("flf2a$ 6 5 20 15 2\nc1\nc2\n")) =
      .ok (⟨36, 6, 5, 20, 15, 15, str2bytes ("c1\nc2"), none, none⟩, []) ∧
    (⟨36, 6, 5, 20, 15, 15, str2bytes ("c1\nc2"), none, none⟩ :
      Header).codetagCount = 0 ∧
    str2bytes ("$") = [36] := by
  refine ⟨?_, rfl, rfl⟩
  rfl

/-- C2 counterexample: a header line carrying only the magic token and the
four required numeric fields is not accepted with an empty comment; the
comment read of zero lines fails with `NotEnoughData`. -/
theorem comment_default_counterexample :
    parse_header (str2bytes ("flf2a$ 6 5 20 15\n")) =
      .error .notEnoughData := by
  rfl

/-- C2 amended: when no `comment_lines` token was supplied, `parse_header`
fails with `NotEnoughData` instead of succeeding with an empty comment,
because the zero-line comment concatenation lacks the trailing newline that
`read_string_lines` demands. -/
theorem comment_absent_notEnoughData (s line r : List Nat) (b : HeaderBuilder)
    (hl : read_line s = .ok (line, r))
    (ht : runTokens (tokens line) = .ok b)
    (hc : b.comment_lines = none) :
    parse_header s = .error .notEnoughData := by
  unfold parse_header
  rw [hl]
  have h' : (match runTokens (tokens line) with
      | Except.ok b1 => HeaderBuilder.build b1 r
      | Except.error e => (Except.error e :
          Except ParseError (Header × List Nat))) =
      Except.error ParseError.notEnoughData := by
    rw [ht]
    exact build_comment_none b r hc
  exact h'

/-- C2 witness: a concrete five-token header on which the amended statement
fires. -/
theorem comment_absent_notEnoughData_witness :
    parse_header (str2bytes ("flf2a$ 1 1 1 1\n")) =
      .error .notEnoughData := by
  exact comment_absent_notEnoughData (str2bytes ("flf2a$ 1 1 1 1\n"))
    (str2bytes ("flf2a$ 1 1 1 1")) [] ⟨some 36, some 1, some 1, some 1,
      some 1, some 1, none, none, none⟩ rfl rfl rfl

/-- C3: contrary to the claim, `parse_header` accepts a height token of `0`:
no height validation exists, so a `Header` with `height = 0` is exposed, and
`read_lines` would then compute the underflowing `height - 1`. -/
theorem height_zero_accepted :
    parse_header (str2bytes ("flf2a$ 0 3 20 15 1\n\n")) =
      .ok (⟨36, 0, 3, 20, 15, 15, [], none, none⟩, []) ∧
    (⟨36, 0, 3, 20, 15, 15, [], none, none⟩ : Header).height = 0 := by
  exact ⟨rfl, rfl⟩

/-- C4 counterexample: the codetag token `"0"` is not parsed as decimal 0;
the octal branch fires on any token starting with `0`, leaving an empty
remainder whose octal parse fails, so `read_codetag` reports
`InvalidCharacter`. -/
theorem codetag_zero_counterexample :
    read_codetag (str2bytes ("0\n")) = .error .invalidCharacter := by
  rfl

/-- C4 amended: the octal branch of the codetag decoder applies whenever the
remaining token starts with `0`, including the bare one-character token
`"0"`, whose empty remainder fails the octal parse: for every stream, a
codetag line holding exactly `0` yields `InvalidCharacter`, not 0. -/
theorem codetag_zero_octal_branch (rest : List Nat) :
    read_codetag (48 :: 10 :: rest) = .error .invalidCharacter := by
  rfl

/-- C5 counterexample: a header line with too few tokens (`max_length`,
`old_layout`, `full_layout` unset) fails with `NotEnoughData`, not with the
claimed `InvalidHeader`: the comment read runs before required-field
validation. -/
theorem missing_fields_counterexample :
    parse_header (str2bytes ("flf2a$ 6 5\n")) = .error .notEnoughData := by
  rfl

/-- C8 counterexample: a height-1 record whose only row is the bare
delimiter byte `@` decodes successfully to a `FIGcharacter` exposing one
empty row (zero cells), rather than every stored row having at least one
cell. -/
theorem empty_row_exposed_counterexample :
    read_character (str2bytes ("@")) ⟨36, 1, 5, 20, 15, 15, [], none, none⟩ =
      .ok (⟨[[]]⟩, []) ∧
    ([] : List Grapheme) ∈ (FIGcharacter.mk [[]]).lines := by
  exact ⟨rfl, by simp⟩

/-- C5 amended: a header line with too few tokens (any required field left
unset) always makes `parse_header` fail, but with `NotEnoughData` when every
supplied token was well formed (the zero-line comment read fails before the
required-field validation) and `InvalidHeader` only when some supplied token
itself was malformed. -/
theorem too_few_tokens_fails (s line r : List Nat)
    (hl : read_line s = .ok (line, r))
    (hlen : (tokens line).length ≤ 4) :
    (∀ b, runTokens (tokens line) = .ok b →
      parse_header s = .error .notEnoughData) ∧
    (∀ e, runTokens (tokens line) = .error e →
      parse_header s = .error .invalidHeader) ∧
    (parse_header s = .error .notEnoughData ∨
      parse_header s = .error .invalidHeader) := by
  have hok : ∀ b, runTokens (tokens line) = .ok b →
      parse_header s = .error .notEnoughData := by
    intro b ht
    have ht' : runTokensFrom emptyBuilder 0 (tokens line) = .ok b := ht
    have hc : b.comment_lines = none := by
      have h0 := runTokensFrom_comment_lines (tokens line) emptyBuilder 0 b
        ht' (by omega)
      simpa [emptyBuilder] using h0
    unfold parse_header
    rw [hl]
    have h' : (match runTokens (tokens line) with
        | Except.ok b1 => HeaderBuilder.build b1 r
        | Except.error e => (Except.error e :
            Except ParseError (Header × List Nat))) =
        Except.error ParseError.notEnoughData := by
      rw [ht]
      exact build_comment_none b r hc
    exact h'
  have herr : ∀ e, runTokens (tokens line) = .error e →
      parse_header s = .error .invalidHeader := by
    intro e ht
    have ht' : runTokensFrom emptyBuilder 0 (tokens line) = .error e := ht
    have he := runTokensFrom_error_kind (tokens line) emptyBuilder 0 e ht'
    unfold parse_header
    rw [hl]
    have h' : (match runTokens (tokens line) with
        | Except.ok b1 => HeaderBuilder.build b1 r
        | Except.error e => (Except.error e :
            Except ParseError (Header × List Nat))) =
        Except.error ParseError.invalidHeader := by
      rw [ht, he]
    exact h'
  refine ⟨hok, herr, ?_⟩
  cases ht : runTokens (tokens line) with
  | ok b => exact Or.inl (hok b ht)
  | error e => exact Or.inr (herr e ht)

/-- C5 witness: a two-token header whose tokens all parse lands in the
`NotEnoughData` branch, and one with a malformed second token lands in the
`InvalidHeader` branch. -/
theorem too_few_tokens_fails_witness :
    parse_header (str2bytes ("flf2a$ 1\n")) = .error .notEnoughData ∧
    parse_header (str2bytes ("flf2a$ x\n")) = .error .invalidHeader := by
  constructor
  · have h := too_few_tokens_fails (str2bytes ("flf2a$ 1\n"))
      (str2bytes ("flf2a$ 1")) [] rfl (by decide)
    exact h.1 ⟨some 36, some 1, none, none, none, none, none, none, none⟩ rfl
  · have h := too_few_tokens_fails (str2bytes ("flf2a$ x\n"))
      (str2bytes ("flf2a$ x")) [] rfl (by decide)
    exact h.2.1 ParseError.invalidHeader rfl

/-- C6: for every parsed header, `full_layout` is derived from `old_layout`
(`-1` to 0, `0` to 64, any other signed value reinterpreted as unsigned,
i.e. reduced mod `2 ^ 64`) whenever the header line has no eighth token, and
an explicit eighth token always overrides the derived value. -/
theorem full_layout_derivation (s : List Nat) (hdr : Header)
    (rest line r : List Nat)
    (hp : parse_header s = .ok (hdr, rest))
    (hl : read_line s = .ok (line, r)) :
    ((tokens line).length ≤ 7 →
      hdr.full_layout = full_layout_from_old_layout hdr.old_layout) ∧
    (∀ t7, (tokens line)[7]? = some t7 →
      parseU64 t7 = some hdr.full_layout) ∧
    full_layout_from_old_layout (-1) = 0 ∧
    full_layout_from_old_layout 0 = 64 ∧
    (∀ z : Int, z ≠ -1 → z ≠ 0 →
      full_layout_from_old_layout z = (z % 2 ^ 64).toNat) := by
  unfold parse_header at hp
  rw [hl] at hp
  have hp' : (match runTokens (tokens line) with
      | Except.ok b1 => HeaderBuilder.build b1 r
      | Except.error e => (Except.error e :
          Except ParseError (Header × List Nat))) =
      Except.ok (hdr, rest) := hp
  cases ht : runTokens (tokens line) with
  | error e => rw [ht] at hp'; exact absurd hp' (by simp)
  | ok b =>
    rw [ht] at hp'
    have ht' : runTokensFrom emptyBuilder 0 (tokens line) = .ok b := ht
    obtain ⟨-, -, -, -, hol, hfl, -, -⟩ := build_fields b r hdr rest hp'
    refine ⟨?_, ?_, rfl, rfl, ?_⟩
    · intro hlen
      have hinv := runTokensFrom_flInv (tokens line) emptyBuilder 0 b ht'
        (by omega) (by intro ol h0; simp [emptyBuilder] at h0)
      have h2 := hinv hdr.old_layout hol
      rw [hfl] at h2
      exact Option.some.inj h2
    · intro t7 ht7
      obtain ⟨hlt7, hget7⟩ := List.getElem?_eq_some_iff.mp ht7
      have hdrop : (tokens line).drop 7 = t7 :: (tokens line).drop 8 := by
        rw [List.drop_eq_getElem_cons hlt7, hget7]
      have happ := runTokensFrom_append ((tokens line).take 7)
        ((tokens line).drop 7) emptyBuilder 0
      rw [List.take_append_drop 7 (tokens line)] at happ
      rw [ht'] at happ
      have hlen7 : ((tokens line).take 7).length = 7 := by
        rw [List.length_take]
        omega
      rw [hlen7] at happ
      cases h7 : runTokensFrom emptyBuilder 0 ((tokens line).take 7) with
      | error e => rw [h7] at happ; exact absurd happ (by simp)
      | ok b1 =>
        rw [h7] at happ
        have happ' : runTokensFrom b1 (0 + 7) ((tokens line).drop 7) =
            Except.ok b := happ.symm
        rw [hdrop] at happ'
        obtain ⟨v, hv, hbfl⟩ := runTokensFrom_seven t7 ((tokens line).drop 8)
          b1 b happ'
        rw [hfl] at hbfl
        injection hbfl with h4
        rw [hv, h4]
    · intro z h1 h2
      simp [full_layout_from_old_layout, h1, h2]

/-- C6 witness: a nine-token header whose explicit eighth token (value 9)
overrides the value 64 that `old_layout = 0` would have derived. -/
theorem full_layout_derivation_witness :
    parseU64 (str2bytes ("9")) = some 9 := by
  have h := full_layout_derivation
    (str2bytes ("flf2a$ 1 2 3 0 1 0 9 4\n\n"))
    ⟨36, 1, 2, 3, 0, 9, [], some PrintDirection.leftToRight, some 4⟩
    [] (str2bytes ("flf2a$ 1 2 3 0 1 0 9 4")) (str2bytes ("\n"))
    rfl rfl
  exact h.2.1 (str2bytes ("9")) rfl

/-- Unfolding `read_character` once the `height` lines are read. -/
theorem read_character_eq (s : List Nat) (hdr : Header)
    (lines : List (List Nat)) (rest : List Nat)
    (hrl : read_lines s hdr.height = .ok (lines, rest)) :
    read_character s hdr =
      match checkAndStrip lines hdr.height with
      | .error e => .error e
      | .ok rows =>
        match segmentRows hdr.hard_blank_char rows with
        | .error e => .error e
        | .ok segs => .ok (⟨segs⟩, rest) := by
  unfold read_character
  rw [hrl]

/-- C7: when `height > 1`, `read_character` requires the final row to end
with the record delimiter (the last byte of the first row) twice, failing
with `InvalidCharacter` otherwise; on success one trailing delimiter byte is
removed from the final row and then one ordinary trailing delimiter from
every row, so the height-3 rows `XX@`, `YY@`, `ZZ@@` decode to stored rows
`XX`, `YY`, `ZZ` with `height() = 3`. -/
theorem double_delimiter_requirement :
    (∀ (s : List Nat) (hdr : Header) (lines : List (List Nat))
        (rest : List Nat),
      read_lines s hdr.height = .ok (lines, rest) →
      hdr.height > 1 →
      (lines.headD []).length ≠ 0 →
      ¬ ((lines.getLastD []).getLast? = some ((lines.headD []).getLastD 0) ∧
         (lines.getLastD []).dropLast.getLast? =
           some ((lines.headD []).getLastD 0)) →
      read_character s hdr = .error .invalidCharacter) ∧
    read_character (str2bytes ("XX@\nYY@\nZZ@@"))
        ⟨36, 3, 5, 20, 15, 15, [], none, none⟩ =
      .ok (⟨[[Grapheme.cell [88], Grapheme.cell [88]],
            [Grapheme.cell [89], Grapheme.cell [89]],
            [Grapheme.cell [90], Grapheme.cell [90]]]⟩, []) ∧
    (⟨[[Grapheme.cell [88], Grapheme.cell [88]],
       [Grapheme.cell [89], Grapheme.cell [89]],
       [Grapheme.cell [90], Grapheme.cell [90]]]⟩ : FIGcharacter).height
      = 3 := by
  refine ⟨?_, rfl, rfl⟩
  intro s hdr lines rest hrl hh hne hnodd
  rw [read_character_eq s hdr lines rest hrl]
  have hcs : checkAndStrip lines hdr.height = .error .invalidCharacter := by
    unfold checkAndStrip
    rw [if_neg hne, if_pos hh]
    by_cases hlast : (lines.getLastD []).getLast? =
        some ((lines.headD []).getLastD 0)
    · rw [if_pos hlast]
      have hnd : (lines.getLastD []).dropLast.getLast? ≠
          some ((lines.headD []).getLastD 0) := fun hc => hnodd ⟨hlast, hc⟩
      cases hsr : stripRows ((lines.headD []).getLastD 0)
          (lines.dropLast ++ [(lines.getLastD []).dropLast]) with
      | ok rows =>
        have hmem := stripRows_ok_mem _ _ _ hsr
          ((lines.getLastD []).dropLast) (by simp)
        exact absurd hmem.2 hnd
      | error e =>
        rw [stripRows_error_kind _ _ _ hsr]
    · rw [if_neg hlast]
  rw [hcs]

/-- C7 witness: a height-3 record whose final row ends with only one
delimiter byte is rejected with `InvalidCharacter`. -/
theorem double_delimiter_requirement_witness :
    read_character (str2bytes ("XX@\nYY@\nZZ@"))
        ⟨36, 3, 5, 20, 15, 15, [], none, none⟩ =
      .error .invalidCharacter := by
  exact double_delimiter_requirement.1 (str2bytes ("XX@\nYY@\nZZ@"))
    ⟨36, 3, 5, 20, 15, 15, [], none, none⟩
    [[88, 88, 64], [89, 89, 64], [90, 90, 64]] [] rfl (by decide) (by decide)
    (by decide)

/-- C8 amended: an originally empty input line always makes `read_character`
fail with `InvalidCharacter` (it is never exposed as a row); however a row
consisting solely of the delimiter byte strips to an empty byte row and is
exposed with zero cells, so not every stored row is non-empty. -/
theorem empty_line_invalidCharacter (s : List Nat) (hdr : Header)
    (lines : List (List Nat)) (rest : List Nat)
    (_hh : 1 ≤ hdr.height)
    (hrl : read_lines s hdr.height = .ok (lines, rest))
    (hmem : [] ∈ lines) :
    read_character s hdr = .error .invalidCharacter := by
  rw [read_character_eq s hdr lines rest hrl]
  have hcs : checkAndStrip lines hdr.height = .error .invalidCharacter := by
    unfold checkAndStrip
    by_cases hne : (lines.headD []).length = 0
    · rw [if_pos hne]
    · rw [if_neg hne]
      obtain ⟨ls0, lastL, hshape⟩ := read_lines_shape s hdr.height lines rest hrl
      by_cases hht : hdr.height > 1
      · rw [if_pos hht]
        by_cases hlast : (lines.getLastD []).getLast? =
            some ((lines.headD []).getLastD 0)
        · rw [if_pos hlast]
          have hlastL : lines.getLastD [] = lastL := by
            rw [hshape]
            exact List.getLastD_concat _ _ _
          have hlastne : lastL ≠ [] := by
            intro hnil
            rw [hlastL, hnil] at hlast
            simp at hlast
          have hdropl : lines.dropLast = ls0 := by
            rw [hshape]
            exact List.dropLast_concat
          have hmem0 : ([] : List Nat) ∈ ls0 := by
            rw [hshape] at hmem
            rcases List.mem_append.mp hmem with h0 | h0
            · exact h0
            · exact absurd (List.mem_singleton.mp h0).symm hlastne
          cases hsr : stripRows ((lines.headD []).getLastD 0)
              (lines.dropLast ++ [(lines.getLastD []).dropLast]) with
          | ok rows =>
            have h1 := stripRows_ok_mem _ _ _ hsr [] (by
              rw [hdropl]
              exact List.mem_append_left _ hmem0)
            exact absurd rfl h1.1
          | error e =>
            rw [stripRows_error_kind _ _ _ hsr]
        · rw [if_neg hlast]
      · rw [if_neg hht]
        cases hsr : stripRows ((lines.headD []).getLastD 0) lines with
        | ok rows =>
          have h1 := stripRows_ok_mem _ _ _ hsr [] hmem
          exact absurd rfl h1.1
        | error e =>
          rw [stripRows_error_kind _ _ _ hsr]
  rw [hcs]

/-- C8 witness: a height-2 record whose first line is empty is rejected with
`InvalidCharacter`. -/
theorem empty_line_invalidCharacter_witness :
    read_character (str2bytes ("\nA@@\n"))
        ⟨36, 2, 5, 20, 15, 15, [], none, none⟩ =
      .error .invalidCharacter := by
  exact empty_line_invalidCharacter (str2bytes ("\nA@@\n"))
    ⟨36, 2, 5, 20, 15, 15, [], none, none⟩ [[], [65, 64, 64]] []
    (by decide) rfl (by decide)

/-- C9: whenever the grapheme segmenter fails on a delimiter-stripped row of
a record whose rows all passed the delimiter checks, `read_character`
reports `InvalidHeader`, not `InvalidCharacter`. -/
theorem segmentation_failure_invalidHeader (s : List Nat) (hdr : Header)
    (lines rows : List (List Nat)) (rest : List Nat) (row : List Nat)
    (hrl : read_lines s hdr.height = .ok (lines, rest))
    (hcs : checkAndStrip lines hdr.height = .ok rows)
    (hr : row ∈ rows)
    (hfail : Grapheme.split row hdr.hard_blank_char = .error ()) :
    read_character s hdr = .error .invalidHeader := by
  rw [read_character_eq s hdr lines rest hrl]
  have hsegeq : segmentRows hdr.hard_blank_char rows =
      .error .invalidHeader := by
    cases hsg : segmentRows hdr.hard_blank_char rows with
    | ok gs =>
      obtain ⟨g, hg⟩ := segmentRows_ok_mem hdr.hard_blank_char rows gs hsg
        row hr
      rw [hfail] at hg
      exact absurd hg (by simp)
    | error e =>
      rw [segmentRows_error_kind _ _ _ hsg]
  rw [hcs]
  have hfin : (match segmentRows hdr.hard_blank_char rows with
      | Except.error e => (Except.error e :
          Except ParseError (FIGcharacter × List Nat))
      | Except.ok segs => Except.ok (⟨segs⟩, rest)) =
      Except.error ParseError.invalidHeader := by
    rw [hsegeq]
  exact hfin

/-- C9 witness: a height-1 row whose data byte 255 is not valid UTF-8 fails
segmentation and surfaces as `InvalidHeader`. -/
theorem segmentation_failure_invalidHeader_witness :
    read_character [255, 64] ⟨36, 1, 5, 20, 15, 15, [], none, none⟩ =
      .error .invalidHeader := by
  exact segmentation_failure_invalidHeader [255, 64]
    ⟨36, 1, 5, 20, 15, 15, [], none, none⟩ [[255, 64]] [[255]] [] [255]
    rfl rfl (by decide) rfl

/-- Reading a line stops at the first newline byte. -/
theorem readLineAux_append (l r : List Nat) (h : ¬ 10 ∈ l) :
    readLineAux (l ++ 10 :: r) = some (l, r) := by
  induction l with
  | nil => simp [readLineAux]
  | cons b bs ih =>
    have hb : b ≠ 10 := fun hb => h (by simp [hb])
    have ih' := ih (fun hm => h (List.mem_cons_of_mem b hm))
    show (if b = 10 then some ([], bs ++ 10 :: r)
      else match readLineAux (bs ++ 10 :: r) with
        | some (l, r) => some (b :: l, r)
        | none => none) = some (b :: bs, r)
    rw [if_neg hb, ih']

/-- Splitting at spaces peels off a space-free prefix whole. -/
theorem splitOnSpace_append (l r : List Nat) (h : ¬ 32 ∈ l) :
    splitOnSpace (l ++ 32 :: r) = l :: splitOnSpace r := by
  induction l with
  | nil => simp [splitOnSpace]
  | cons b bs ih =>
    have hb : b ≠ 32 := fun hb => h (by simp [hb])
    have ih' := ih (fun hm => h (List.mem_cons_of_mem b hm))
    show (if b = 32 then [] :: splitOnSpace (bs ++ 32 :: r)
      else match splitOnSpace (bs ++ 32 :: r) with
        | t :: ts => (b :: t) :: ts
        | [] => [[b]]) = (b :: bs) :: splitOnSpace r
    rw [if_neg hb, ih']

/-- C10: every first header token starting with the four magic bytes `flf2`
is accepted, and the hard-blank byte is the token's last byte, whatever the
token's length — including the bare token `flf2`, whose own last byte `2`
becomes the hard blank.  With a fixed well-formed remainder of the header
line, the whole parse succeeds and exposes that byte. -/
theorem magic_token_hard_blank (tok : List Nat)
    (hmagic : tok.take 4 = MAGIC_NUMBER)
    (hsp : ¬ 32 ∈ tok) (hnl : ¬ 10 ∈ tok) :
    parse_header (tok ++ str2bytes (" 1 2 3 4 1\n\n")) =
      .ok (⟨tok.getLastD 0, 1, 2, 3, 4, 4, [], none, none⟩, []) := by
  have hne : tok ≠ [] := by
    intro h0
    rw [h0] at hmagic
    exact absurd hmagic (by decide)
  have hgl : tok.getLast? = some (tok.getLastD 0) := by
    cases hq : tok.getLast? with
    | none =>
      have h1 := List.getLast?_isSome.mpr hne
      rw [hq] at h1
      exact absurd h1 (by simp)
    | some c => rw [List.getLastD_eq_getLast?, hq]; rfl
  have hline : read_line (tok ++ str2bytes (" 1 2 3 4 1\n\n")) =
      .ok (tok ++ [32, 49, 32, 50, 32, 51, 32, 52, 32, 49], [10]) := by
    have h10 : ¬ 10 ∈ tok ++ [32, 49, 32, 50, 32, 51, 32, 52, 32, 49] := by
      intro hm
      rcases List.mem_append.mp hm with h0 | h0
      · exact hnl h0
      · simp at h0
    have hra : readLineAux (tok ++ str2bytes (" 1 2 3 4 1\n\n")) =
        some (tok ++ [32, 49, 32, 50, 32, 51, 32, 52, 32, 49], [10]) := by
      have hsplit : tok ++ str2bytes (" 1 2 3 4 1\n\n") =
          (tok ++ [32, 49, 32, 50, 32, 51, 32, 52, 32, 49]) ++ 10 :: [10] := by
        rw [List.append_assoc]
        rfl
      rw [hsplit]
      exact readLineAux_append _ _ h10
    have hcr : stripCR (tok ++ [32, 49, 32, 50, 32, 51, 32, 52, 32, 49]) =
        tok ++ [32, 49, 32, 50, 32, 51, 32, 52, 32, 49] := by
      unfold stripCR
      rw [if_neg]
      rw [List.getLast?_append]
      simp
    unfold read_line
    rw [hra]
    show Except.ok (stripCR (tok ++ [32, 49, 32, 50, 32, 51, 32, 52, 32, 49]),
      [10]) = Except.ok (tok ++ [32, 49, 32, 50, 32, 51, 32, 52, 32, 49], [10])
    rw [hcr]
  have htok : tokens (tok ++ [32, 49, 32, 50, 32, 51, 32, 52, 32, 49]) =
      tok :: [[49], [50], [51], [52], [49]] := by
    have hx : tok ++ [32, 49, 32, 50, 32, 51, 32, 52, 32, 49] =
        tok ++ 32 :: [49, 32, 50, 32, 51, 32, 52, 32, 49] := rfl
    unfold tokens
    rw [hx, splitOnSpace_append tok _ hsp]
    rw [List.filter_cons_of_pos (by simpa using hne)]
    rfl
  have hrt : runTokens (tok :: [[49], [50], [51], [52], [49]]) =
      .ok ⟨some (tok.getLastD 0), some 1, some 2, some 3, some 4, some 4,
        some 1, none, none⟩ := by
    have h0 : applyToken emptyBuilder 0 tok =
        .ok { emptyBuilder with hard_blank_char := some (tok.getLastD 0) } := by
      unfold applyToken
      rw [if_pos hmagic, hgl]
    show runTokensFrom emptyBuilder 0 (tok :: [[49], [50], [51], [52], [49]]) =
      .ok ⟨some (tok.getLastD 0), some 1, some 2, some 3, some 4, some 4,
        some 1, none, none⟩
    simp only [runTokensFrom]
    rw [h0]
    rfl
  unfold parse_header
  rw [hline]
  have hfinal : (match runTokens
      (tokens (tok ++ [32, 49, 32, 50, 32, 51, 32, 52, 32, 49])) with
      | Except.ok b1 => HeaderBuilder.build b1 [10]
      | Except.error e => (Except.error e :
          Except ParseError (Header × List Nat))) =
      Except.ok (⟨tok.getLastD 0, 1, 2, 3, 4, 4, [], none, none⟩, []) := by
    rw [htok, hrt]
    rfl
  exact hfinal

/-- C10 witness: the bare token `flf2` is accepted with hard blank `'2'`
(byte 50), and a longer-than-five-byte token `flf2ab$` is accepted with its
final byte `'$'` (byte 36) as hard blank. -/
theorem magic_token_hard_blank_witness :
    parse_header (str2bytes ("flf2") ++ str2bytes (" 1 2 3 4 1\n\n")) =
      .ok (⟨50, 1, 2, 3, 4, 4, [], none, none⟩, []) ∧
    parse_header (str2bytes ("flf2ab$") ++ str2bytes (" 1 2 3 4 1\n\n")) =
      .ok (⟨36, 1, 2, 3, 4, 4, [], none, none⟩, []) := by
  constructor
  · exact magic_token_hard_blank (str2bytes ("flf2")) (by decide) (by decide)
      (by decide)
  · exact magic_token_hard_blank (str2bytes ("flf2ab$")) (by decide)
      (by decide) (by decide)
